import Mathlib

/-!
Shallow embedding of `src/scraper.py`, the FFXIV Lodestone Crystalline
Conflict ranking scraper: the text-normalising helpers (`clean_text`,
Python `str.split`, `" ".join`, `str.replace("+", "")`), the per-row
decoder inside the `for row in rows` loop, the incremental scroll/reveal
loop, and the acquire/release and exit-path structure of the `scrape`
coroutine.  Machine strings are modelled as Lean `String` (a wrapper
around `List Char`); a field read that may raise on the Playwright side is
modelled as `Except Unit String`.
-/

/-- Python `str.split()` with no separator, at the character level: split
on runs of whitespace, discarding empty pieces.  `acc` holds the current
in-progress word, reversed.  (Whitespace is `Char.isWhitespace`, covering
the space/tab/newline characters the scraped text contains.) -/
def pySplitAux : List Char → List Char → List (List Char)
  | [], acc => if acc.isEmpty then [] else [acc.reverse]
  | c :: cs, acc =>
    if c.isWhitespace then
      if acc.isEmpty then pySplitAux cs [] else acc.reverse :: pySplitAux cs []
    else pySplitAux cs (c :: acc)

/-- Python `text.split()` on the underlying character list. -/
def pySplitChars (l : List Char) : List (List Char) :=
  pySplitAux l []

/-- Python `" ".join(words)` at the character level. -/
def joinSpaceChars : List (List Char) → List Char
  | [] => []
  | [w] => w
  | w :: w' :: ws => w ++ ' ' :: joinSpaceChars (w' :: ws)

/-- `clean_text` from `src/scraper.py` line 11: `" ".join(text.split())`
(remove newlines and extra spaces to make CSV safe). -/
def clean_text (s : String) : String :=
  ⟨joinSpaceChars (pySplitChars s.data)⟩

/-- Python `text.split()` at the `String` level, as used on the already
cleaned `full_name`, `points_text` and `wins_text`. -/
def pySplit (s : String) : List String :=
  (pySplitChars s.data).map String.mk

/-- Python `t.replace("+", "")` for the one-character pattern `"+"`:
every occurrence of the plus sign is removed. -/
def removePlus (s : String) : String :=
  ⟨s.data.filter (fun c => c != '+')⟩

/-- The decoded output unit, one CSV line: the dict built at
`src/scraper.py` lines 121-129 with keys Rank, Name, World, Credits,
Victories, Credits Gained, Victories Gained. -/
structure Record where
  rank : String
  name : String
  world : String
  credits : String
  victories : String
  creditsGained : String
  victoriesGained : String
deriving DecidableEq

/-- The raw per-row snapshot.  Each field is the result of an
`inner_text()` read of the `.order` / `.name` / `.points` / `.wins`
locator; a read that raises on the Playwright side is `Except.error ()`. -/
structure RawRow where
  order : Except Unit String
  name : Except Unit String
  points : Except Unit String
  wins : Except Unit String

/-- The metric decoding applied identically to the `points` and `wins`
fields (`src/scraper.py` lines 105-119): clean, split on whitespace,
primary value is token 0 (or `""`), delta is token 1 (or `""`) with every
`+` removed. -/
def splitMetricPair (text : String) : String × String :=
  let parts := pySplit (clean_text text)
  (parts.getD 0 "", removePlus (parts.getD 1 ""))

/-- The body of the `for row in rows` loop (`src/scraper.py` lines
89-133): read and clean the four fields, split the name into the first
two words and the rest, decode both metric pairs, and build the Record.
Any raising field read aborts the whole row (`none`), mirroring the
enclosing `try`/`except` that drops the row. -/
def decodeRow (row : RawRow) : Option Record := do
  let rank := clean_text (← row.order.toOption)
  let full_name := clean_text (← row.name.toOption)
  let parts := pySplit full_name
  let nameWorld :=
    if 2 ≤ parts.length then
      (String.intercalate " " (parts.take 2), String.intercalate " " (parts.drop 2))
    else
      (full_name, "")
  let creditsPair := splitMetricPair (← row.points.toOption)
  let winsPair := splitMetricPair (← row.wins.toOption)
  some { rank := rank, name := nameWorld.1, world := nameWorld.2,
         credits := creditsPair.1, victories := winsPair.1,
         creditsGained := creditsPair.2, victoriesGained := winsPair.2 }

/-- The whole row loop: decode every revealed row in order, keeping the
successes and skipping (`continue`) the rows whose decode raised. -/
def processRows (rows : List RawRow) : List Record :=
  rows.filterMap decodeRow

/-- `TOTAL_PLAYERS = 300` (`src/scraper.py` line 9). -/
def TOTAL_PLAYERS : Nat := 300

/-- `max_scroll_attempts = 50` (`src/scraper.py` line 58). -/
def max_scroll_attempts : Nat := 50

/-- Result of the reveal loop: the final value of `scroll_attempt`, the
last `curr_rows` measured, and whether the loop exited through the
`curr_rows >= TOTAL_PLAYERS` break (saturation). -/
structure RevealResult where
  attemptsUsed : Nat
  finalCount : Nat
  saturated : Bool
deriving DecidableEq

/-- The `while scroll_attempt < max_scroll_attempts` loop
(`src/scraper.py` lines 62-83), compiled to structural recursion on the
remaining fuel (`fuel = maxAttempts - attempt`, so the guard
`attempt < maxAttempts` is exactly `fuel > 0`).  `measure i` is the row
count `page.locator(...).count()` observed on the iteration whose
`scroll_attempt` value is `i`; the scroll, the settle waits and the
optional Show-More click only influence what `measure` returns.  On
saturation the loop breaks *before* `scroll_attempt += 1`. -/
def revealLoop (measure : Nat → Nat) (target : Nat) :
    Nat → Nat → Nat → RevealResult
  | 0, attempt, curr => ⟨attempt, curr, false⟩
  | fuel + 1, attempt, curr =>
    let c := measure attempt
    if target ≤ c then ⟨attempt, c, true⟩
    else revealLoop measure target fuel (attempt + 1) c

/-- The reveal loop as entered at `src/scraper.py` lines 59-62:
`scroll_attempt = 0`, `curr_rows = 0`. -/
def reveal (measure : Nat → Nat) (target maxAttempts : Nat) : RevealResult :=
  revealLoop measure target maxAttempts 0 0

/-- Resource/trace events of one run of `scrape`: the browser launch
(acquisition), a `page.reload()`, the CSV write, and `browser.close()`
(release). -/
inductive Ev
  | launch
  | reload
  | write
  | close
deriving DecidableEq, BEq

/-- Terminal outcome of one run of `scrape`. -/
inductive Outcome
  | saved (n : Nat)
  | noData
  | noTable
  | raised
deriving DecidableEq

/-- The external world for one run of `scrape`: whether `page.goto`
raises, whether the `.cc-ranking__table` selector appears within the
first wait and within the post-reload wait, the row count observed at
each scroll iteration, whether the final row query raises, the raw rows
obtained, and whether opening/writing the CSV raises.  (The cookie
prompt and Show-More clicks sit inside `try`/`except` blocks that swallow
everything, so they cannot alter the control flow modelled here.) -/
structure Env where
  gotoThrows : Bool
  tableFirst : Bool
  tableRetry : Bool
  measure : Nat → Nat
  rowsQueryThrows : Bool
  rows : List RawRow
  writeThrows : Bool

/-- `scrape` from the point where the ranking table was found
(`src/scraper.py` lines 56-150): run the reveal loop, query the rows,
decode them, write the CSV only when `data` is non-empty, then
`browser.close()`.  Returns the events appended to `tr`, the outcome, and
whether the browser is still open (an exception escaped before the
explicit `browser.close()` on line 150). -/
def scrapeAfterTable (env : Env) (tr : List Ev) : List Ev × Outcome × Bool :=
  let _fin := reveal env.measure TOTAL_PLAYERS max_scroll_attempts
  if env.rowsQueryThrows then (tr, Outcome.raised, true)
  else
    let data := processRows env.rows
    if data.isEmpty then (tr ++ [Ev.close], Outcome.noData, false)
    else if env.writeThrows then (tr, Outcome.raised, true)
    else (tr ++ [Ev.write, Ev.close], Outcome.saved data.length, false)

/-- The body of the `async with async_playwright()` block
(`src/scraper.py` lines 18-150): launch the browser, navigate, wait for
the table with one reload-and-re-wait retry, then continue with
`scrapeAfterTable`.  When the table is absent twice, lines 51-54 close
the browser explicitly and return. -/
def scrapeBody (env : Env) : List Ev × Outcome × Bool :=
  if env.gotoThrows then ([Ev.launch], Outcome.raised, true)
  else if env.tableFirst then scrapeAfterTable env [Ev.launch]
  else if env.tableRetry then scrapeAfterTable env [Ev.launch, Ev.reload]
  else ([Ev.launch, Ev.reload, Ev.close], Outcome.noTable, false)

/-- One full run of `scrape`.  Exiting the `async with async_playwright()`
block stops Playwright, which closes any browser still connected — on a
path where the explicit `browser.close()` was skipped by a propagating
exception, that exit performs the release.  A browser already closed is
not closed again. -/
def scrapeRun (env : Env) : List Ev × Outcome :=
  let r := scrapeBody env
  (r.1 ++ (if r.2.2 then [Ev.close] else []), r.2.1)

/-- The sample RawRow used in the spec's Row Decoder example: all four
field reads succeed. -/
def sampleRow : RawRow :=
  ⟨Except.ok "12", Except.ok "John Smith Mateus [Crystal]",
   Except.ok "1500 +20", Except.ok "40 +3"⟩

/-- A run whose table never appears, first wait and retry both timing
out. -/
def envNoTable : Env :=
  ⟨false, false, false, fun _ => 0, false, [], false⟩

/-- A run that finds the table at once but reveals no decodable rows. -/
def envEmptyRows : Env :=
  ⟨false, true, false, fun _ => 0, false, [], false⟩

/-- The final `scroll_attempt` never exceeds the attempts available:
each loop iteration either breaks or consumes one unit of fuel. -/
theorem revealLoop_attempts_le (measure : Nat → Nat) (target : Nat) :
    ∀ fuel attempt curr,
      (revealLoop measure target fuel attempt curr).attemptsUsed ≤ attempt + fuel := by
  intro fuel
  induction fuel with
  | zero => intro attempt curr; simp [revealLoop]
  | succ f ih =>
    intro attempt curr
    simp only [revealLoop]
    split
    · simp
    · have := ih (attempt + 1) (measure attempt)
      omega

/-- If no measurement within the remaining fuel reaches the target, the
loop runs the fuel down to zero and exits unsaturated with
`scroll_attempt` increased by exactly the fuel. -/
theorem revealLoop_exhaust (measure : Nat → Nat) (target : Nat) :
    ∀ fuel attempt curr,
      (∀ i, attempt ≤ i → i < attempt + fuel → measure i < target) →
      (revealLoop measure target fuel attempt curr).attemptsUsed = attempt + fuel ∧
      (revealLoop measure target fuel attempt curr).saturated = false := by
  intro fuel
  induction fuel with
  | zero => intro attempt curr _; simp [revealLoop]
  | succ f ih =>
    intro attempt curr h
    have hma : measure attempt < target := h attempt le_rfl (by omega)
    simp only [revealLoop]
    rw [if_neg (by omega)]
    obtain ⟨h1, h2⟩ := ih (attempt + 1) (measure attempt)
      (fun i hi1 hi2 => h i (by omega) (by omega))
    exact ⟨by omega, h2⟩

/-- C3: if `measure` never reaches the target, the reveal loop performs
exactly `maxAttempts` iterations (one measurement per value of
`scroll_attempt` from `0` to `maxAttempts - 1`), then returns
unsaturated and loops no further; the attempt counter never exceeds
`maxAttempts` at any reachable loop state. -/
theorem reveal_exhausts_at_cap (measure : Nat → Nat) (target maxAttempts : Nat)
    (h : ∀ i, i < maxAttempts → measure i < target) :
    (reveal measure target maxAttempts).attemptsUsed = maxAttempts ∧
    (reveal measure target maxAttempts).saturated = false ∧
    ∀ fuel attempt curr, attempt + fuel ≤ maxAttempts →
      (revealLoop measure target fuel attempt curr).attemptsUsed ≤ maxAttempts := by
  obtain ⟨h1, h2⟩ :=
    revealLoop_exhaust measure target maxAttempts 0 0 (fun i _ hi2 => h i (by omega))
  refine ⟨by simpa [reveal] using h1, by simpa [reveal] using h2, ?_⟩
  intro fuel attempt curr hle
  have := revealLoop_attempts_le measure target fuel attempt curr
  omega

/-- C3 witness: `measure` stuck at 7 against target 300 and cap 50. -/
theorem reveal_exhausts_at_cap_witness :
    (reveal (fun _ => 7) 300 50).attemptsUsed = 50 ∧
    (reveal (fun _ => 7) 300 50).saturated = false :=
  ⟨(reveal_exhausts_at_cap (fun _ => 7) 300 50 (by decide)).1,
   (reveal_exhausts_at_cap (fun _ => 7) 300 50 (by decide)).2.1⟩

/-- C4: if the very first measurement already equals the target, the loop
breaks on its first iteration: the final count is the target, the run is
saturated, and `scroll_attempt` is still 0 (the counter is only
incremented after a non-saturating measurement). -/
theorem reveal_saturates_first_call (measure : Nat → Nat) (target maxAttempts : Nat)
    (h1 : measure 0 = target) (h2 : 0 < maxAttempts) :
    reveal measure target maxAttempts = ⟨0, target, true⟩ := by
  obtain ⟨f, rfl⟩ : ∃ f, maxAttempts = f + 1 := ⟨maxAttempts - 1, by omega⟩
  simp [reveal, revealLoop, h1]

/-- C4 witness: `measure` returning 300 at once against target 300. -/
theorem reveal_saturates_first_call_witness :
    reveal (fun _ => 300) 300 50 = ⟨0, 300, true⟩ :=
  reveal_saturates_first_call (fun _ => 300) 300 50 rfl (by decide)

/-- A row whose `name` read raises decodes to nothing, whatever the other
fields hold. -/
theorem decodeRow_name_error (row : RawRow) (h : row.name = Except.error ()) :
    decodeRow row = none := by
  cases horder : row.order with
  | error e => simp [decodeRow, horder, Except.toOption]
  | ok s => simp [decodeRow, horder, h, Except.toOption]

/-- C5: a poisoned row (its `name` read raises) yields no Record at all,
and in a batch of three rows with the middle one poisoned the two good
rows still decode, in order, to a Batch of length 2. -/
theorem poisoned_row_skipped (g1 bad g2 : RawRow) (r1 r2 : Record)
    (hbad : bad.name = Except.error ())
    (h1 : decodeRow g1 = some r1) (h2 : decodeRow g2 = some r2) :
    decodeRow bad = none ∧ processRows [g1, bad, g2] = [r1, r2] := by
  have hb := decodeRow_name_error bad hbad
  exact ⟨hb, by simp [processRows, h1, h2, hb]⟩

/-- C5 witness: a concrete 3-row batch with the middle row poisoned. -/
theorem poisoned_row_skipped_witness :
    decodeRow ⟨Except.ok "2", Except.error (), Except.ok "", Except.ok ""⟩ = none ∧
    processRows
      [⟨Except.ok "1", Except.ok "Alice Argent Leviathan", Except.ok "100 +1", Except.ok "10 +2"⟩,
       ⟨Except.ok "2", Except.error (), Except.ok "", Except.ok ""⟩,
       ⟨Except.ok "3", Except.ok "Bob Brave Sargatanas", Except.ok "90", Except.ok "9"⟩] =
      [⟨"1", "Alice Argent", "Leviathan", "100", "10", "1", "2"⟩,
       ⟨"3", "Bob Brave", "Sargatanas", "90", "9", "", ""⟩] :=
  poisoned_row_skipped _ _ _ _ _ rfl (by decide) (by decide)

/-- C7: the metric decoding shared by the points and wins fields maps
`"1234 +56"` to `("1234", "56")`, `"1234"` to `("1234", "")` and `""` to
`("", "")`; the decoder applies exactly this function to the points text
for (Credits, Credits Gained) and to the wins text for (Victories,
Victories Gained). -/
theorem metric_pair_split_spec :
    splitMetricPair "1234 +56" = ("1234", "56") ∧
    splitMetricPair "1234" = ("1234", "") ∧
    splitMetricPair "" = ("", "") ∧
    ∀ o n p w : String,
      (decodeRow ⟨Except.ok o, Except.ok n, Except.ok p, Except.ok w⟩).map
          (fun r => (r.credits, r.creditsGained, r.victories, r.victoriesGained)) =
        some ((splitMetricPair p).1, (splitMetricPair p).2,
              (splitMetricPair w).1, (splitMetricPair w).2) := by
  refine ⟨by decide, by decide, by decide, ?_⟩
  intro o n p w
  rfl

/-- C7 witness: the shared decoding at a concrete all-fields-ok row. -/
theorem metric_pair_split_spec_witness :
    (decodeRow ⟨Except.ok "1", Except.ok "A B C", Except.ok "10 +2", Except.ok "3 +4"⟩).map
        (fun r => (r.credits, r.creditsGained, r.victories, r.victoriesGained)) =
      some ((splitMetricPair "10 +2").1, (splitMetricPair "10 +2").2,
            (splitMetricPair "3 +4").1, (splitMetricPair "3 +4").2) :=
  metric_pair_split_spec.2.2.2 "1" "A B C" "10 +2" "3 +4"

/-- C10: the sign stripping on delta tokens removes every `+` in the
token (`"+5+6"` becomes `"56"`), leaves a token without `+` unchanged,
and its output never contains `+`. -/
theorem plus_stripped_everywhere :
    removePlus "+5+6" = "56" ∧
    (∀ s : String, (∀ c ∈ s.data, c ≠ '+') → removePlus s = s) ∧
    (∀ s : String, '+' ∉ (removePlus s).data) := by
  refine ⟨by decide, ?_, ?_⟩
  · intro s h
    have hf : s.data.filter (fun c => c != '+') = s.data := by
      apply List.filter_eq_self.mpr
      intro a ha
      simpa using h a ha
    cases s with
    | mk data => simpa [removePlus] using congrArg String.mk hf
  · intro s hmem
    simp only [removePlus] at hmem
    have := List.of_mem_filter hmem
    simp at this

/-- C10 witness: a plus-free token passes through unchanged. -/
theorem plus_stripped_everywhere_witness : removePlus "56" = "56" :=
  plus_stripped_everywhere.2.1 "56" (by decide)

/-- C1 counterexample: on the spec's sample row the decoder does not
split the bracketed datacenter out of the affiliation — the World field
keeps the whole `"Mateus [Crystal]"` and in particular is not
`"Mateus"`. -/
theorem world_not_split_on_bracket :
    (decodeRow sampleRow).map Record.world = some "Mateus [Crystal]" ∧
    (decodeRow sampleRow).map Record.world ≠ some "Mateus" :=
  ⟨by decide, by decide⟩

/-- C1 as amended: the sample row decodes to rank "12", name
"John Smith", world "Mateus [Crystal]" (the bracketed text stays inside
the World field; there is no separate datacenter column), credits
"1500" with gain "20", victories "40" with gain "3". -/
theorem decode_sample_row :
    decodeRow sampleRow =
      some { rank := "12", name := "John Smith", world := "Mateus [Crystal]",
             credits := "1500", victories := "40",
             creditsGained := "20", victoriesGained := "3" } := by
  decide

/-- C2: on every run, once the browser is launched it is closed exactly
once, whichever exit path is taken — the normal path, the
table-never-found early return, and the paths where an exception escapes
during extraction or the CSV write (there the `async with
async_playwright()` exit performs the one release). -/
theorem browser_released_exactly_once (env : Env) :
    (scrapeRun env).1.count Ev.launch = 1 ∧ (scrapeRun env).1.count Ev.close = 1 := by
  obtain ⟨g, t1, t2, m, rq, rows, w⟩ := env
  simp only [scrapeRun, scrapeBody, scrapeAfterTable]
  cases g <;> cases t1 <;> cases t2 <;> cases rq <;> cases w <;>
    by_cases hrows : (processRows rows).isEmpty <;>
      simp [hrows, List.count_append, List.count_cons, List.count_nil] <;> decide

/-- C2 witness: the run whose content container never appears. -/
theorem browser_released_exactly_once_witness :
    (scrapeRun envNoTable).1.count Ev.launch = 1 ∧
    (scrapeRun envNoTable).1.count Ev.close = 1 :=
  browser_released_exactly_once envNoTable

/-- C9: when the ranking table does not appear within the first wait, the
run performs exactly one reload-and-re-wait; if the table is still absent
after the retry, the run aborts with the no-table outcome and its whole
event trace is launch, reload, close — the browser is released (once)
before returning. -/
theorem table_retry_once_then_abort (env : Env)
    (hg : env.gotoThrows = false) (h1 : env.tableFirst = false) :
    (scrapeRun env).1.count Ev.reload = 1 ∧
    (env.tableRetry = false →
      (scrapeRun env).1 = [Ev.launch, Ev.reload, Ev.close] ∧
      (scrapeRun env).2 = Outcome.noTable) := by
  obtain ⟨g, t1, t2, m, rq, rows, w⟩ := env
  simp only at hg h1
  subst hg h1
  simp only [scrapeRun, scrapeBody, scrapeAfterTable]
  cases t2 <;> cases rq <;> cases w <;>
    by_cases hrows : (processRows rows).isEmpty <;>
      simp [hrows, List.count_append, List.count_cons, List.count_nil] <;> decide

/-- C9 witness: both waits time out. -/
theorem table_retry_once_then_abort_witness :
    (scrapeRun envNoTable).1.count Ev.reload = 1 ∧
    (envNoTable.tableRetry = false →
      (scrapeRun envNoTable).1 = [Ev.launch, Ev.reload, Ev.close] ∧
      (scrapeRun envNoTable).2 = Outcome.noTable) :=
  table_retry_once_then_abort envNoTable rfl rfl

/-- C6: a run that reaches the extraction stage and decodes an empty
Batch ends with the informational no-data outcome and never emits a CSV
write; conversely, on any run whatsoever a CSV write implies the decoded
Batch was non-empty. -/
theorem empty_batch_no_write :
    (∀ env : Env, env.gotoThrows = false →
      (env.tableFirst = true ∨ env.tableRetry = true) →
      env.rowsQueryThrows = false →
      processRows env.rows = [] →
      (scrapeRun env).2 = Outcome.noData ∧ Ev.write ∉ (scrapeRun env).1) ∧
    (∀ env : Env, Ev.write ∈ (scrapeRun env).1 → processRows env.rows ≠ []) := by
  constructor
  · intro env hg ht hq hrows
    obtain ⟨g, t1, t2, m, rq, rows, w⟩ := env
    simp only at hg ht hq hrows
    subst hg hq
    cases t1 <;> cases t2 <;>
      first
      | (simp [scrapeRun, scrapeBody, scrapeAfterTable, hrows]; done)
      | simp at ht
  · intro env hw hrows
    obtain ⟨g, t1, t2, m, rq, rows, w⟩ := env
    simp only at hrows
    cases g <;> cases t1 <;> cases t2 <;> cases rq <;> cases w <;>
      simp [scrapeRun, scrapeBody, scrapeAfterTable, hrows] at hw

/-- C6 witness: table found at once, zero revealed rows. -/
theorem empty_batch_no_write_witness :
    (scrapeRun envEmptyRows).2 = Outcome.noData ∧
    Ev.write ∉ (scrapeRun envEmptyRows).1 :=
  empty_batch_no_write.1 envEmptyRows rfl (Or.inl rfl) rfl rfl

/-- `takeWhile` passes over a block whose elements all satisfy the
predicate. -/
theorem takeWhile_append_all (p : Char → Bool) (l₁ l₂ : List Char)
    (h : ∀ a ∈ l₁, p a = true) :
    (l₁ ++ l₂).takeWhile p = l₁ ++ l₂.takeWhile p := by
  induction l₁ with
  | nil => rfl
  | cons a l ih =>
    have ha : p a = true := h a (List.mem_cons_self a l)
    simp only [List.cons_append, List.takeWhile_cons, ha, if_pos]
    rw [ih (fun b hb => h b (List.mem_cons_of_mem a hb))]

/-- `dropWhile` drops a whole block whose elements all satisfy the
predicate. -/
theorem dropWhile_append_all (p : Char → Bool) (l₁ l₂ : List Char)
    (h : ∀ a ∈ l₁, p a = true) :
    (l₁ ++ l₂).dropWhile p = l₂.dropWhile p := by
  induction l₁ with
  | nil => rfl
  | cons a l ih =>
    have ha : p a = true := h a (List.mem_cons_self a l)
    simp only [List.cons_append, List.dropWhile_cons, ha, if_pos]
    exact ih (fun b hb => h b (List.mem_cons_of_mem a hb))

/-- With a non-empty accumulator, `pySplitAux` closes the in-progress
word with the next whitespace-free run and restarts cleanly. -/
theorem pySplitAux_acc (l : List Char) :
    ∀ acc, acc ≠ [] →
      pySplitAux l acc =
        (acc.reverse ++ l.takeWhile (fun d => !d.isWhitespace)) ::
          pySplitChars (l.dropWhile (fun d => !d.isWhitespace)) := by
  induction l with
  | nil =>
    intro acc hacc
    cases acc with
    | nil => exact absurd rfl hacc
    | cons a as => simp [pySplitAux, pySplitChars]
  | cons c cs ih =>
    intro acc hacc
    by_cases hws : c.isWhitespace
    · cases acc with
      | nil => exact absurd rfl hacc
      | cons a as =>
        simp [pySplitAux, pySplitChars, List.takeWhile_cons, List.dropWhile_cons, hws]
    · cases acc with
      | nil => exact absurd rfl hacc
      | cons a as =>
        rw [show pySplitAux (c :: cs) (a :: as) = pySplitAux cs (c :: a :: as) by
          simp [pySplitAux, hws]]
        rw [ih (c :: a :: as) (by simp)]
        simp [List.takeWhile_cons, List.dropWhile_cons, hws]

/-- Unfolding equation: splitting the empty text. -/
theorem pySplitChars_nil : pySplitChars [] = [] := rfl

/-- Unfolding equation: a leading whitespace character is skipped. -/
theorem pySplitChars_cons_ws (c : Char) (cs : List Char) (h : c.isWhitespace = true) :
    pySplitChars (c :: cs) = pySplitChars cs := by
  simp [pySplitChars, pySplitAux, h]

/-- Unfolding equation: a leading word character opens a word running to
the next whitespace. -/
theorem pySplitChars_cons_word (c : Char) (cs : List Char) (h : c.isWhitespace = false) :
    pySplitChars (c :: cs) =
      (c :: cs.takeWhile (fun d => !d.isWhitespace)) ::
        pySplitChars (cs.dropWhile (fun d => !d.isWhitespace)) := by
  rw [show pySplitChars (c :: cs) = pySplitAux cs [c] by simp [pySplitChars, pySplitAux, h]]
  rw [pySplitAux_acc cs [c] (by simp)]
  simp

/-- Every word produced by `pySplitAux` over a whitespace-free
accumulator is non-empty and whitespace-free. -/
theorem pySplitAux_good :
    ∀ (l acc : List Char), (∀ c ∈ acc, c.isWhitespace = false) →
      ∀ t ∈ pySplitAux l acc, t ≠ [] ∧ ∀ c ∈ t, c.isWhitespace = false := by
  intro l
  induction l with
  | nil =>
    intro acc hacc t ht
    cases acc with
    | nil => simp [pySplitAux] at ht
    | cons a as =>
      simp [pySplitAux] at ht
      subst ht
      refine ⟨by simp, ?_⟩
      intro c hc
      simp at hc
      rcases hc with hc | rfl
      · exact hacc c (by simp [hc])
      · exact hacc c (by simp)
  | cons c cs ih =>
    intro acc hacc t ht
    by_cases hws : c.isWhitespace
    · cases acc with
      | nil =>
        rw [show pySplitAux (c :: cs) [] = pySplitAux cs [] by simp [pySplitAux, hws]] at ht
        exact ih [] (by simp) t ht
      | cons a as =>
        rw [show pySplitAux (c :: cs) (a :: as) = (a :: as).reverse :: pySplitAux cs [] by
          simp [pySplitAux, hws]] at ht
        rcases List.mem_cons.mp ht with rfl | ht
        · refine ⟨by simp, ?_⟩
          intro d hd
          simp at hd
          rcases hd with hd | rfl
          · exact hacc d (by simp [hd])
          · exact hacc d (by simp)
        · exact ih [] (by simp) t ht
    · rw [show pySplitAux (c :: cs) acc = pySplitAux cs (c :: acc) by simp [pySplitAux, hws]] at ht
      refine ih (c :: acc) ?_ t ht
      intro d hd
      rcases List.mem_cons.mp hd with rfl | hd
      · simpa using hws
      · exact hacc d hd

/-- Every word of a Python split is non-empty and whitespace-free. -/
theorem pySplitChars_good (l : List Char) :
    ∀ t ∈ pySplitChars l, t ≠ [] ∧ ∀ c ∈ t, c.isWhitespace = false :=
  pySplitAux_good l [] (by simp)

/-- A non-empty whitespace-free word followed by nothing or by a
whitespace character splits off as one whole token. -/
theorem pySplitChars_word_append (t s : List Char) (hne : t ≠ [])
    (hgood : ∀ c ∈ t, c.isWhitespace = false)
    (hs : s = [] ∨ ∃ d s', s = d :: s' ∧ d.isWhitespace = true) :
    pySplitChars (t ++ s) = t :: pySplitChars s := by
  cases t with
  | nil => exact absurd rfl hne
  | cons c t' =>
    have hc : c.isWhitespace = false := hgood c (by simp)
    rw [List.cons_append, pySplitChars_cons_word c (t' ++ s) hc]
    have hall : ∀ a ∈ t', (fun d => !d.isWhitespace) a = true := by
      intro a ha
      simp [hgood a (by simp [ha])]
    have htw : (t' ++ s).takeWhile (fun d => !d.isWhitespace) = t' := by
      rw [takeWhile_append_all _ t' s hall]
      rcases hs with rfl | ⟨d, s', rfl, hd⟩
      · simp
      · simp [List.takeWhile_cons, hd]
    have hdw : (t' ++ s).dropWhile (fun d => !d.isWhitespace) = s := by
      rw [dropWhile_append_all _ t' s hall]
      rcases hs with rfl | ⟨d, s', rfl, hd⟩
      · rfl
      · simp [List.dropWhile_cons, hd]
    rw [htw, hdw]

/-- Joining a non-empty list of non-empty words never yields the empty
text. -/
theorem joinSpaceChars_cons_ne_nil (t : List Char) (ts : List (List Char)) (h : t ≠ []) :
    joinSpaceChars (t :: ts) ≠ [] := by
  cases ts with
  | nil => simpa [joinSpaceChars] using h
  | cons t' ts' => simp [joinSpaceChars]

/-- Splitting the space-joined text recovers exactly the words, when the
words are non-empty and whitespace-free. -/
theorem pySplitChars_join (ts : List (List Char))
    (h1 : ∀ t ∈ ts, t ≠ []) (h2 : ∀ t ∈ ts, ∀ c ∈ t, c.isWhitespace = false) :
    pySplitChars (joinSpaceChars ts) = ts := by
  induction ts with
  | nil => rfl
  | cons t ts ih =>
    cases ts with
    | nil =>
      have h := pySplitChars_word_append t [] (h1 t (by simp))
        (fun c hc => h2 t (by simp) c hc) (Or.inl rfl)
      simpa [joinSpaceChars] using h
    | cons t' ts' =>
      rw [show joinSpaceChars (t :: t' :: ts') = t ++ ' ' :: joinSpaceChars (t' :: ts')
        from rfl]
      rw [pySplitChars_word_append t (' ' :: joinSpaceChars (t' :: ts')) (h1 t (by simp))
        (fun c hc => h2 t (by simp) c hc) (Or.inr ⟨' ', _, rfl, by decide⟩)]
      rw [pySplitChars_cons_ws ' ' _ (by decide)]
      rw [ih (fun u hu => h1 u (by simp [hu])) (fun u hu => h2 u (by simp [hu]))]

/-- A text without any space character never has two adjacent spaces. -/
theorem chain'_no_space_of_all (l : List Char) (h : ∀ c ∈ l, c ≠ ' ') :
    List.Chain' (fun a b => ¬(a = ' ' ∧ b = ' ')) l := by
  induction l with
  | nil => simp
  | cons a l ih =>
    rw [List.chain'_cons']
    refine ⟨fun y _ hcon => (h a (by simp)) hcon.1, ih (fun c hc => h c (by simp [hc]))⟩

/-- The optional last element of a space-free text is not a space. -/
theorem getLast?_all_ne_space (l : List Char) (h : ∀ c ∈ l, c ≠ ' ') :
    ∀ x ∈ l.getLast?, x ≠ ' ' := by
  intro x hx
  obtain ⟨hne, heq⟩ := List.mem_getLast?_eq_getLast hx
  exact heq ▸ h _ (List.getLast_mem hne)

/-- The optional head of a space-free text is not a space. -/
theorem head?_all_ne_space (l : List Char) (h : ∀ c ∈ l, c ≠ ' ') :
    ∀ x ∈ l.head?, x ≠ ' ' := by
  cases l with
  | nil => intro x hx; simp at hx
  | cons a l =>
    intro x hx
    simp only [List.head?_cons, Option.mem_def, Option.some.injEq] at hx
    subst hx
    exact h a (by simp)

/-- Space-joining non-empty space-free words yields a text with no two
adjacent spaces, not starting with a space and not ending with one. -/
theorem joinSpaceChars_spaced (ts : List (List Char))
    (h1 : ∀ t ∈ ts, t ≠ []) (h2 : ∀ t ∈ ts, ∀ c ∈ t, c ≠ ' ') :
    List.Chain' (fun a b => ¬(a = ' ' ∧ b = ' ')) (joinSpaceChars ts) ∧
    (∀ x ∈ (joinSpaceChars ts).head?, x ≠ ' ') ∧
    (∀ x ∈ (joinSpaceChars ts).getLast?, x ≠ ' ') := by
  induction ts with
  | nil =>
    refine ⟨by simp [joinSpaceChars], ?_, ?_⟩ <;> intro x hx <;>
      simp [joinSpaceChars] at hx
  | cons t ts ih =>
    cases ts with
    | nil =>
      have ht : ∀ c ∈ t, c ≠ ' ' := h2 t (by simp)
      exact ⟨chain'_no_space_of_all t ht, head?_all_ne_space t ht,
        getLast?_all_ne_space t ht⟩
    | cons t' ts' =>
      obtain ⟨ihc, ihh, ihl⟩ :=
        ih (fun u hu => h1 u (by simp [hu])) (fun u hu => h2 u (by simp [hu]))
      have hREST : joinSpaceChars (t' :: ts') ≠ [] :=
        joinSpaceChars_cons_ne_nil t' ts' (h1 t' (by simp))
      have ht : ∀ c ∈ t, c ≠ ' ' := h2 t (by simp)
      have htne : t ≠ [] := h1 t (by simp)
      have hshape : joinSpaceChars (t :: t' :: ts') =
          t ++ ' ' :: joinSpaceChars (t' :: ts') := rfl
      obtain ⟨r, rest', hre⟩ : ∃ r rest', joinSpaceChars (t' :: ts') = r :: rest' := by
        cases hj : joinSpaceChars (t' :: ts') with
        | nil => exact absurd hj hREST
        | cons r rest' => exact ⟨r, rest', rfl⟩
      refine ⟨?_, ?_, ?_⟩
      · rw [hshape, List.chain'_append]
        refine ⟨chain'_no_space_of_all t ht, ?_, ?_⟩
        · rw [List.chain'_cons']
          exact ⟨fun y hy hcon => ihh y hy hcon.2, ihc⟩
        · intro x hx y hy hcon
          exact getLast?_all_ne_space t ht x hx hcon.1
      · rw [hshape]
        cases t with
        | nil => exact absurd rfl htne
        | cons c t0 =>
          intro x hx
          simp only [List.cons_append, List.head?_cons, Option.mem_def,
            Option.some.injEq] at hx
          subst hx
          exact ht c (by simp)
      · rw [hshape, List.getLast?_append_cons, hre, List.getLast?_cons_cons]
        intro x hx
        exact ihl x (by rw [hre]; exact hx)

/-- C8: for every string, `clean_text` leaves no two adjacent space
characters, no leading space and no trailing space, and it is
idempotent. -/
theorem clean_text_normalised (s : String) :
    List.Chain' (fun a b => ¬(a = ' ' ∧ b = ' ')) (clean_text s).data ∧
    (clean_text s).data.head? ≠ some ' ' ∧
    (clean_text s).data.getLast? ≠ some ' ' ∧
    clean_text (clean_text s) = clean_text s := by
  have hgood := pySplitChars_good s.data
  have h1 : ∀ t ∈ pySplitChars s.data, t ≠ [] := fun t ht => (hgood t ht).1
  have h2w : ∀ t ∈ pySplitChars s.data, ∀ c ∈ t, c.isWhitespace = false :=
    fun t ht => (hgood t ht).2
  have h2 : ∀ t ∈ pySplitChars s.data, ∀ c ∈ t, c ≠ ' ' := by
    intro t ht c hc heq
    have := h2w t ht c hc
    rw [heq] at this
    simp at this
  obtain ⟨hc, hh, hl⟩ := joinSpaceChars_spaced (pySplitChars s.data) h1 h2
  refine ⟨hc, ?_, ?_, ?_⟩
  · intro hcon
    exact hh ' ' (Option.mem_def.mpr hcon) rfl
  · intro hcon
    exact hl ' ' (Option.mem_def.mpr hcon) rfl
  · show String.mk (joinSpaceChars (pySplitChars (clean_text s).data)) =
      String.mk (joinSpaceChars (pySplitChars s.data))
    have : pySplitChars (clean_text s).data = pySplitChars s.data :=
      pySplitChars_join (pySplitChars s.data) h1 h2w
    rw [this]

/-- C8 witness: the normalisation facts at a concrete messy string. -/
theorem clean_text_normalised_witness :
    List.Chain' (fun a b => ¬(a = ' ' ∧ b = ' ')) (clean_text "  Lodestone   ranking  ").data ∧
    (clean_text "  Lodestone   ranking  ").data.head? ≠ some ' ' ∧
    (clean_text "  Lodestone   ranking  ").data.getLast? ≠ some ' ' ∧
    clean_text (clean_text "  Lodestone   ranking  ") = clean_text "  Lodestone   ranking  " :=
  clean_text_normalised "  Lodestone   ranking  "
